import Mathlib

/-!
Shallow embedding of the neuronika computation-graph core: tensors with
NumPy-style broadcasting, the gradient reduce/push machinery, the
Multiplication and MatrixMatrixMulT forward/backward node families, and the
Adam optimizer step. Scalars are modelled exactly (as rationals); tensors are
a shape together with row-major flat data.
-/

namespace Neuronika

/-- A dense tensor: a shape and the row-major flat data. -/
structure Tensor where
  shape : List Nat
  data : List ℚ
  deriving Repr, DecidableEq

/-- Number of elements of a shape (product of the dimensions). -/
def prodShape (s : List Nat) : Nat := s.foldr (fun a b => a * b) 1

/-- A zero-filled tensor of the given shape (`Tensor::zeros`). -/
def zerosT (s : List Nat) : Tensor := ⟨s, List.replicate (prodShape s) 0⟩

/-- A tensor of the given shape filled with one value. -/
def fullT (s : List Nat) (v : ℚ) : Tensor := ⟨s, List.replicate (prodShape s) v⟩

/-- Broadcast two dimension sizes: equal, or one of them is 1. -/
def broadcastDim (a b : Nat) : Option Nat :=
  if a = b then some a else if a = 1 then some b else if b = 1 then some a else none

/-- Broadcast two reversed shapes (trailing axis first). -/
def bcastRev : List Nat → List Nat → Option (List Nat)
  | [], ys => some ys
  | x :: xs, [] => some (x :: xs)
  | x :: xs, y :: ys => do
      let d ← broadcastDim x y
      let rest ← bcastRev xs ys
      some (d :: rest)

/-- NumPy-style broadcast of two shapes: align from the trailing axis; for
each pair of dimensions they are equal or one is 1; missing leading axes of
the shorter shape are treated as 1. -/
def broadcastShape (a b : List Nat) : Option (List Nat) :=
  (bcastRev a.reverse b.reverse).map List.reverse

/-- All multi-indices of a shape, in row-major order. -/
def indicesOf : List Nat → List (List Nat)
  | [] => [[]]
  | n :: rest => (List.range n).flatMap (fun i => (indicesOf rest).map (fun ix => i :: ix))

/-- Row-major flat position of a multi-index in a shape. -/
def flatIndex (shape idx : List Nat) : Nat :=
  (List.zip shape idx).foldl (fun acc p => acc * p.1 + p.2) 0

/-- Map a multi-index of the broadcast shape down to a source-tensor
multi-index: drop the leading axes the source does not have, and clamp to 0
on the axes where the source dimension is 1. -/
def srcIndex (srcShape idx : List Nat) : List Nat :=
  List.zipWith (fun s i => if s = 1 then 0 else i) srcShape (idx.drop (idx.length - srcShape.length))

/-- Element of a tensor at a multi-index (0 out of range). -/
def tget (t : Tensor) (idx : List Nat) : ℚ :=
  t.data.getD (flatIndex t.shape idx) 0

/-- Broadcast-view of a tensor read at an index of the target shape. -/
def bget (t : Tensor) (idx : List Nat) : ℚ :=
  tget t (srcIndex t.shape idx)

/-- Materialized broadcast of a tensor to a target shape. -/
def broadcastTo (t : Tensor) (target : List Nat) : Tensor :=
  ⟨target, (indicesOf target).map (fun ix => bget t ix)⟩

/-- Elementwise sum of two same-shaped tensors. -/
def tadd (a b : Tensor) : Tensor := ⟨a.shape, List.zipWith (fun x y => x + y) a.data b.data⟩

/-- Elementwise product of two same-shaped tensors. -/
def tmul (a b : Tensor) : Tensor := ⟨a.shape, List.zipWith (fun x y => x * y) a.data b.data⟩

/-- Add a value into one flat position of a tensor's data. -/
def addAt (t : Tensor) (pos : Nat) (v : ℚ) : Tensor :=
  ⟨t.shape, t.data.set pos (t.data.getD pos 0 + v)⟩

/-- Modelled from the spec: the repository's gradient-reduction helper
`reduce` (declared outside the sampled sources) — sum the gradient `g` over
every axis where the target shape is 1 but the gradient's shape is greater,
and drop the leading axes the target does not have, producing a tensor with
exactly the target (pre-broadcast) shape. -/
def reduce (target : List Nat) (g : Tensor) : Tensor :=
  (indicesOf g.shape).foldl
    (fun acc ix => addAt acc (flatIndex target (srcIndex target ix)) (tget g ix)) (zerosT target)

/-- Modelled from the spec: the repository's `cobroadcasted_zeros` helper
(declared outside the sampled sources) — a zero-filled tensor of the
broadcast shape of the two arguments. -/
def cobroadcasted_zeros (a b : Tensor) : Tensor :=
  zerosT ((broadcastShape a.shape b.shape).getD [])

/-- A parent gradient accumulator: its (optional) gradient buffer and its
overwrite flag, as seen through the `Gradient` and `Overwrite` capabilities. -/
structure GradNode where
  gradient : Option Tensor
  overwrite : Bool
  deriving Repr, DecidableEq

/-- Modelled from the spec: the repository's `push_gradient` helper (declared
outside the sampled sources) — if the parent can be overwritten, store the
reduced contribution in place of the buffer's contents and flip the overwrite
flag to false; otherwise add it elementwise; no-op when the buffer is absent. -/
def push_gradient (p : GradNode) (reduced : Tensor) : GradNode :=
  match p.gradient with
  | none => p
  | some g =>
      if p.overwrite then { gradient := some reduced, overwrite := false }
      else { gradient := some (tadd g reduced), overwrite := p.overwrite }

/-- Modelled from the spec: the repository's `expect_tensor` accessor helper
(declared outside the sampled sources), through which `gradient()` and
`gradient_mut()` go — querying a gradient on a no-grad node (buffer absent)
is a fatal contract violation (a panic), modelled as `Except.error`. -/
def expect_tensor (g : Option Tensor) : Except String Tensor :=
  match g with
  | some t => Except.ok t
  | none => Except.error "trying to get a de-allocated gradient"

/-- The `Multiplication` forward node: its cached data and its computed flag.
The parent handles are passed explicitly to `forward`. -/
structure Multiplication where
  data : Tensor
  computed : Bool
  deriving Repr, DecidableEq

/-- `Multiplication::new`: allocate a zero buffer of the co-broadcast shape
of the parents' data; the computed flag starts false. -/
def Multiplication.new (l r : Tensor) : Multiplication :=
  ⟨cobroadcasted_zeros l r, false⟩

/-- `Multiplication::forward`: return immediately when already computed;
otherwise set the flag and overwrite the cached data with the elementwise
product of the broadcast parents (the `Zip` loop, iterating the cached
buffer's own shape). -/
def Multiplication.forward (n : Multiplication) (l r : Tensor) : Multiplication :=
  if n.computed then n
  else
    { data := ⟨n.data.shape, (indicesOf n.data.shape).map (fun ix => bget l ix * bget r ix)⟩,
      computed := true }

/-- `Multiplication::forward` instrumented with an execution counter: the
counter advances exactly when the compute body runs (i.e. when the cached
flag was false). -/
def Multiplication.forwardCounted (l r : Tensor) (s : Multiplication × Nat) :
    Multiplication × Nat :=
  (s.1.forward l r, if s.1.computed then s.2 else s.2 + 1)

/-- The `MultiplicationBackward` node state: optional gradient buffer, the
construction-time broadcast shape, the overwrite flag and the scratch buffer. -/
structure MultiplicationBackward where
  gradient : Option Tensor
  shape : List Nat
  overwrite : Bool
  buffer : Option Tensor
  deriving Repr, DecidableEq

/-- `MultiplicationBackward::new`: zero gradient of the co-broadcast shape of
the two parents' gradients, overwrite flag true, zero scratch buffer. -/
def MultiplicationBackward.new (left_grad right_grad : Tensor) : MultiplicationBackward :=
  let gradient := cobroadcasted_zeros left_grad right_grad
  ⟨some gradient, gradient.shape, true, some (zerosT gradient.shape)⟩

/-- `MultiplicationBackward::backward`: fill the scratch buffer with
upstream-gradient times broadcast right data, reduce to the left parent's
gradient shape and push; then the same with the left data toward the right
parent. Absent buffers (no-grad states) panic in the source; modelled as
`none`. -/
def MultiplicationBackward.backward (n : MultiplicationBackward)
    (left_data right_data : Tensor) (lp rp : GradNode) :
    Option (GradNode × GradNode × MultiplicationBackward) := do
  let g ← n.gradient
  let buf ← n.buffer
  let buf1 : Tensor := ⟨buf.shape, (indicesOf buf.shape).map (fun ix => tget g ix * bget right_data ix)⟩
  let lpg ← lp.gradient
  let lp2 := push_gradient lp (reduce lpg.shape buf1)
  let buf2 : Tensor := ⟨buf.shape, (indicesOf buf.shape).map (fun ix => tget g ix * bget left_data ix)⟩
  let rpg ← rp.gradient
  let rp2 := push_gradient rp (reduce rpg.shape buf2)
  some (lp2, rp2, { n with buffer := some buf2 })

/-- `MultiplicationBackward::no_grad`: drop the gradient buffer. -/
def MultiplicationBackward.no_grad (n : MultiplicationBackward) : MultiplicationBackward :=
  { n with gradient := none }

/-- `MultiplicationBackward::with_grad`: reallocate a zero gradient buffer of
the stored construction-time shape. -/
def MultiplicationBackward.with_grad (n : MultiplicationBackward) : MultiplicationBackward :=
  { n with gradient := some (zerosT n.shape) }

/-- `MultiplicationBackward`'s `Gradient::gradient()` accessor. -/
def MultiplicationBackward.gradientAcc (n : MultiplicationBackward) : Except String Tensor :=
  expect_tensor n.gradient

/-- The `MultiplicationBackwardUnary` node state. -/
structure MultiplicationBackwardUnary where
  gradient : Option Tensor
  shape : List Nat
  overwrite : Bool
  buffer : Option Tensor
  deriving Repr, DecidableEq

/-- `MultiplicationBackwardUnary::new`: zero gradient of the co-broadcast
shape of the differentiable operand's gradient and the constant operand's
data, overwrite flag true, zero scratch buffer. -/
def MultiplicationBackwardUnary.new (diff_grad no_diff_data : Tensor) :
    MultiplicationBackwardUnary :=
  let gradient := cobroadcasted_zeros diff_grad no_diff_data
  ⟨some gradient, gradient.shape, true, some (zerosT gradient.shape)⟩

/-- `MultiplicationBackwardUnary::backward`: one contribution only, against
the constant operand's value. -/
def MultiplicationBackwardUnary.backward (n : MultiplicationBackwardUnary)
    (no_diff_data : Tensor) (p : GradNode) :
    Option (GradNode × MultiplicationBackwardUnary) := do
  let g ← n.gradient
  let buf ← n.buffer
  let buf1 : Tensor := ⟨buf.shape, (indicesOf buf.shape).map (fun ix => tget g ix * bget no_diff_data ix)⟩
  let pg ← p.gradient
  some (push_gradient p (reduce pg.shape buf1), { n with buffer := some buf1 })

/-- Rows of a rank-2 tensor. -/
def rows (t : Tensor) : Nat := t.shape.getD 0 0

/-- Columns of a rank-2 tensor. -/
def cols (t : Tensor) : Nat := t.shape.getD 1 0

/-- Matrix element access of a rank-2 tensor (row-major). -/
def mget (t : Tensor) (i j : Nat) : ℚ := t.data.getD (i * cols t + j) 0

/-- The transpose view `t()` of a rank-2 tensor, materialized. -/
def trT (t : Tensor) : Tensor :=
  ⟨[cols t, rows t], (indicesOf [cols t, rows t]).map (fun ix => mget t (ix.getD 1 0) (ix.getD 0 0))⟩

/-- `general_mat_mul`: `old := alpha * (a · b) + beta * old`, elementwise over
the `rows a × cols b` output, the inner sum over `a`'s columns. -/
def gemm (alpha : ℚ) (a b : Tensor) (beta : ℚ) (old : Tensor) : Tensor :=
  ⟨[rows a, cols b],
    (indicesOf [rows a, cols b]).map (fun ix =>
      alpha * ((List.range (cols a)).foldl
        (fun acc k => acc + mget a (ix.getD 0 0) k * mget b k (ix.getD 1 0)) 0)
      + beta * tget old ix)⟩

/-- Plain matrix product. -/
def matMul (a b : Tensor) : Tensor :=
  ⟨[rows a, cols b],
    (indicesOf [rows a, cols b]).map (fun ix =>
      (List.range (cols a)).foldl
        (fun acc k => acc + mget a (ix.getD 0 0) k * mget b k (ix.getD 1 0)) 0)⟩

/-- Modelled from the spec: `DotDim::shape` (declared outside the sampled
sources) — the matrix-product output shape: first dimension of the left
shape by second dimension of the right shape. -/
def DotDimShape (a b : List Nat) : List Nat := [a.getD 0 0, b.getD 1 0]

/-- Modelled from the spec: the repository's `push_mat_mat_gradient` helper
(declared outside the sampled sources) — the matrix-product contribution
`a · b` pushed to the target through the overwrite-or-accumulate rule. -/
def push_mat_mat_gradient (p : GradNode) (a b : Tensor) : GradNode :=
  push_gradient p (matMul a b)

/-- The `MatrixMatrixMulT` forward node: cached data and computed flag. -/
structure MatrixMatrixMulT where
  data : Tensor
  computed : Bool
  deriving Repr, DecidableEq

/-- `MatrixMatrixMulT::new`: allocate zeros of shape
`DotDim::shape(left.raw_dim(), right.t().raw_dim())`. -/
def MatrixMatrixMulT.new (l r : Tensor) : MatrixMatrixMulT :=
  ⟨zerosT (DotDimShape l.shape (trT r).shape), false⟩

/-- `MatrixMatrixMulT::forward`: return immediately when already computed;
otherwise set the flag and run `general_mat_mul(1, left, right.t(), 0, data)`. -/
def MatrixMatrixMulT.forward (n : MatrixMatrixMulT) (l r : Tensor) : MatrixMatrixMulT :=
  if n.computed then n
  else { data := gemm 1 l (trT r) 0 n.data, computed := true }

/-- The `MatrixMatrixMulTBackward` node state. -/
structure MatrixMatrixMulTBackward where
  gradient : Option Tensor
  shape : List Nat
  overwrite : Bool
  deriving Repr, DecidableEq

/-- `MatrixMatrixMulTBackward::new`: zero gradient of shape
`DotDim::shape(left_grad.raw_dim(), right_grad.t().raw_dim())`, overwrite
flag true. -/
def MatrixMatrixMulTBackward.new (left_grad right_grad : Tensor) : MatrixMatrixMulTBackward :=
  let shape := DotDimShape left_grad.shape (trT right_grad).shape
  ⟨some (zerosT shape), shape, true⟩

/-- `MatrixMatrixMulTBackward::backward`: push `gradient · right_data` to the
left parent and `gradient.t() · left_data` to the right parent. -/
def MatrixMatrixMulTBackward.backward (n : MatrixMatrixMulTBackward)
    (left_data right_data : Tensor) (lp rp : GradNode) : Option (GradNode × GradNode) := do
  let g ← n.gradient
  some (push_mat_mat_gradient lp g right_data, push_mat_mat_gradient rp (trT g) left_data)

/-- `MatrixMatrixMulTBackward::no_grad`. -/
def MatrixMatrixMulTBackward.no_grad (n : MatrixMatrixMulTBackward) : MatrixMatrixMulTBackward :=
  { n with gradient := none }

/-- `MatrixMatrixMulTBackward::with_grad`. -/
def MatrixMatrixMulTBackward.with_grad (n : MatrixMatrixMulTBackward) : MatrixMatrixMulTBackward :=
  { n with gradient := some (zerosT n.shape) }

/-- `MatrixMatrixMulTBackward`'s `Gradient::gradient()` accessor. -/
def MatrixMatrixMulTBackward.gradientAcc (n : MatrixMatrixMulTBackward) : Except String Tensor :=
  expect_tensor n.gradient

/-- The `MatrixMatrixMulTBackwardLeft` node state. -/
structure MatrixMatrixMulTBackwardLeft where
  gradient : Option Tensor
  shape : List Nat
  overwrite : Bool
  deriving Repr, DecidableEq

/-- `MatrixMatrixMulTBackwardLeft::new`: zero gradient of shape
`DotDim::shape(left_grad.raw_dim(), right_data.t().raw_dim())`, overwrite
flag true. -/
def MatrixMatrixMulTBackwardLeft.new (left_grad right_data : Tensor) :
    MatrixMatrixMulTBackwardLeft :=
  let shape := DotDimShape left_grad.shape (trT right_data).shape
  ⟨some (zerosT shape), shape, true⟩

/-- Three-way elementwise zip, as `ndarray`'s three-operand `Zip`. -/
def zipWith3 (f : ℚ → ℚ → ℚ → ℚ) : List ℚ → List ℚ → List ℚ → List ℚ
  | a :: as, b :: bs, c :: cs => f a b c :: zipWith3 f as bs cs
  | _, _, _ => []

/-- An `AdamParam`: parameter data, gradient, step counter and the two
moment estimates. Scalars are exact rationals; the `f32` square root is a
function parameter of the step. -/
structure AdamParam where
  data : List ℚ
  grad : List ℚ
  step : Nat
  exp_avg : List ℚ
  exp_avg_sq : List ℚ
  deriving Repr, DecidableEq

/-- `AdamParam::from`: step counter 0 and zero moment buffers shaped like the
gradient. -/
def AdamParam.ofParam (data grad : List ℚ) : AdamParam :=
  ⟨data, grad, 0, List.replicate grad.length 0, List.replicate grad.length 0⟩

/-- The per-element value update of `Adam::step` as the source writes it:
`data += exp_avg / (sqrt(exp_avg_sq) / sqrt(bias_correction2) + eps) * (-lr / bias_correction1)`. -/
def adamValueUpdate (sqrtF : ℚ → ℚ) (lr eps bc1 bc2 d m v : ℚ) : ℚ :=
  d + m / (sqrtF v / sqrtF bc2 + eps) * (-lr / bc1)

/-- The per-element value update as the spec words it:
`value -= lr * mhat / (sqrt(vhat) + eps)` with the bias-corrected moments
`mhat = m / bc1` and `vhat = v / bc2`. -/
def adamValueUpdateSpec (sqrtF : ℚ → ℚ) (lr eps bc1 bc2 d m v : ℚ) : ℚ :=
  d - lr * (m / bc1) / (sqrtF (v / bc2) + eps)

/-- The body of `Adam::step` for one parameter: increment the step counter,
compute the bias corrections, update both moment estimates as exponential
moving averages of the penalized gradient (and of its square), then update
the value from the fresh moments. -/
def adamStepParam (sqrtF pen : ℚ → ℚ) (lr beta1 beta2 eps : ℚ) (p : AdamParam) : AdamParam :=
  let step := p.step + 1
  let bc1 := 1 - beta1 ^ step
  let bc2 := 1 - beta2 ^ step
  let exp_avg := List.zipWith (fun m g => m * beta1 + (g + pen g) * (1 - beta1)) p.exp_avg p.grad
  let exp_avg_sq := List.zipWith
    (fun v g => v * beta2 + (g + pen g) * (g + pen g) * (1 - beta2)) p.exp_avg_sq p.grad
  let data := zipWith3 (fun d m v => adamValueUpdate sqrtF lr eps bc1 bc2 d m v) p.data exp_avg exp_avg_sq
  ⟨data, p.grad, step, exp_avg, exp_avg_sq⟩

/-- `Adam::step` over the parameter list (each parameter independently). -/
def adamStep (sqrtF pen : ℚ → ℚ) (lr beta1 beta2 eps : ℚ) (params : List AdamParam) :
    List AdamParam :=
  params.map (adamStepParam sqrtF pen lr beta1 beta2 eps)

/-- `Adam::zero_grad`: set every gradient element to zero, touching nothing
else. -/
def adamZeroGrad (params : List AdamParam) : List AdamParam :=
  params.map (fun p => { p with grad := p.grad.map (fun _ => 0) })

end Neuronika

namespace Neuronika

theorem zipWith_add_comm (xs ys : List ℚ) :
    List.zipWith (fun x y => x + y) xs ys = List.zipWith (fun x y => x + y) ys xs := by
  induction xs generalizing ys with
  | nil => cases ys <;> rfl
  | cons x xt ih =>
      cases ys with
      | nil => rfl
      | cons y yt => simp [List.zipWith, add_comm, ih]

theorem tadd_comm (a b : Tensor) (h : a.shape = b.shape) : tadd a b = tadd b a := by
  unfold tadd
  rw [h, zipWith_add_comm]

theorem zipWith_mul_map (f g : List Nat → ℚ) (xs : List (List Nat)) :
    List.zipWith (fun x y => x * y) (xs.map f) (xs.map g) = xs.map (fun x => f x * g x) := by
  induction xs with
  | nil => rfl
  | cons x xt ih => simp [List.zipWith, ih]

theorem mem_indicesOf_lt (s ix : List Nat) (h : ix ∈ indicesOf s) :
    List.Forall₂ (fun i d => i < d) ix s := by
  induction s generalizing ix with
  | nil =>
      simp [indicesOf] at h
      simp [h]
  | cons n rest ih =>
      simp [indicesOf, List.mem_flatMap] at h
      obtain ⟨i, hi, ix2, hix2, hcons⟩ := h
      subst hcons
      exact List.Forall₂.cons hi (ih ix2 hix2)

theorem clamp_of_forall2 (s ix : List Nat) (hf : List.Forall₂ (fun i d => i < d) ix s) :
    List.zipWith (fun d i => if d = 1 then 0 else i) s ix = ix := by
  induction hf with
  | nil => rfl
  | cons hid htail ih =>
      rename_i i d ixt st
      simp only [List.zipWith]
      rw [ih]
      by_cases hd : d = 1
      · subst hd
        simp
        omega
      · simp [hd]

theorem srcIndex_self (s ix : List Nat) (h : ix ∈ indicesOf s) : srcIndex s ix = ix := by
  have hf := mem_indicesOf_lt s ix h
  have hlen : ix.length = s.length := hf.length_eq
  unfold srcIndex
  rw [hlen, Nat.sub_self, List.drop_zero]
  exact clamp_of_forall2 s ix hf

/-- `bget` coincides with `tget` at a valid index of the tensor's own shape. -/
theorem bget_self (t : Tensor) (ix : List Nat) (h : ix ∈ indicesOf t.shape) :
    bget t ix = tget t ix := by
  unfold bget
  rw [srcIndex_self _ _ h]

/-- C1. Gradient push follows the overwrite-or-accumulate rule: when the
parent can be overwritten the reduced contribution replaces the buffer's
contents and the overwrite flag flips to false, otherwise it is added
elementwise; consequently a parent with overwrite set that is fed two
contributions of equal shape ends with their elementwise sum regardless of
push order, and a parent fed exactly one contribution ends with exactly that
contribution (no stale prior content). -/
theorem push_gradient_overwrite_or_accumulate
    (p : GradNode) (g0 c c1 c2 : Tensor) (hg : p.gradient = some g0)
    (hsh : c1.shape = c2.shape) :
    (p.overwrite = true → push_gradient p c = ⟨some c, false⟩) ∧
    (p.overwrite = false → push_gradient p c = ⟨some (tadd g0 c), false⟩) ∧
    (p.overwrite = true →
      (push_gradient (push_gradient p c1) c2).gradient = some (tadd c1 c2) ∧
      (push_gradient (push_gradient p c2) c1).gradient = some (tadd c1 c2)) := by
  refine ⟨fun hov => ?_, fun hov => ?_, fun hov => ?_⟩
  · simp [push_gradient, hg, hov]
  · simp [push_gradient, hg, hov]
  · constructor
    · simp [push_gradient, hg, hov]
    · simp [push_gradient, hg, hov]
      exact (tadd_comm c2 c1 hsh.symm).symm ▸ rfl

/-- Witness for C1 at concrete tensors. -/
theorem push_gradient_overwrite_or_accumulate_wit :
    (push_gradient ⟨some (zerosT [1]), true⟩ (⟨[1], [5]⟩ : Tensor) = ⟨some ⟨[1], [5]⟩, false⟩) ∧
    (push_gradient (push_gradient ⟨some (zerosT [1]), true⟩ (⟨[1], [1]⟩ : Tensor))
        (⟨[1], [2]⟩ : Tensor)).gradient = some (tadd ⟨[1], [1]⟩ ⟨[1], [2]⟩) := by
  have h := push_gradient_overwrite_or_accumulate ⟨some (zerosT [1]), true⟩ (zerosT [1])
    ⟨[1], [5]⟩ ⟨[1], [1]⟩ ⟨[1], [2]⟩ rfl rfl
  exact ⟨h.1 rfl, (h.2.2 rfl).1⟩

/-- The scratch-buffer fill loop of the multiplication backward pass equals
the elementwise product of the upstream gradient and the broadcast operand
value (both materialized at the buffer's shape). -/
theorem backward_buffer_eq_tmul_broadcast (g x : Tensor) (s : List Nat) (hs : g.shape = s) :
    (⟨s, (indicesOf s).map (fun ix => tget g ix * bget x ix)⟩ : Tensor)
      = tmul (broadcastTo g s) (broadcastTo x s) := by
  unfold tmul broadcastTo
  simp only
  congr 1
  rw [zipWith_mul_map]
  apply List.map_congr_left
  intro ix hix
  rw [bget_self g ix (by rw [hs]; exact hix)]

/-- C2. `MultiplicationBackward::backward` pushes to the left parent the
reduction (to the left parent's gradient shape) of the upstream gradient
elementwise-times the broadcast right value, and to the right parent the
reduction of the upstream gradient elementwise-times the broadcast left
value; in particular for left value `[2]`, right value `[3]`, upstream
gradient `[1]` and fresh zero parents the left parent ends with `[3]` and
the right parent with `[2]`. -/
theorem multiplication_backward_contributions
    (n : MultiplicationBackward) (g buf ld rd : Tensor) (lp rp : GradNode) (lpg rpg : Tensor)
    (hg : n.gradient = some g) (hb : n.buffer = some buf) (hsh : g.shape = buf.shape)
    (hlp : lp.gradient = some lpg) (hrp : rp.gradient = some rpg) :
    n.backward ld rd lp rp = some
      (push_gradient lp
        (reduce lpg.shape (tmul (broadcastTo g buf.shape) (broadcastTo rd buf.shape))),
       push_gradient rp
        (reduce rpg.shape (tmul (broadcastTo g buf.shape) (broadcastTo ld buf.shape))),
       { n with
          buffer := some (tmul (broadcastTo g buf.shape) (broadcastTo ld buf.shape)) }) ∧
    ({ MultiplicationBackward.new (zerosT [1]) (zerosT [1]) with
        gradient := some ⟨[1], [1]⟩ } : MultiplicationBackward).backward
        ⟨[1], [2]⟩ ⟨[1], [3]⟩ ⟨some (zerosT [1]), true⟩ ⟨some (zerosT [1]), true⟩
      = some (⟨some ⟨[1], [3]⟩, false⟩, ⟨some ⟨[1], [2]⟩, false⟩,
          ⟨some ⟨[1], [1]⟩, [1], true, some ⟨[1], [2]⟩⟩) := by
  constructor
  · rw [← backward_buffer_eq_tmul_broadcast g rd buf.shape hsh,
      ← backward_buffer_eq_tmul_broadcast g ld buf.shape hsh]
    unfold MultiplicationBackward.backward
    rw [hg, hb, hlp, hrp]
    rfl
  · norm_num [MultiplicationBackward.backward, MultiplicationBackward.new, cobroadcasted_zeros,
      broadcastShape, bcastRev, broadcastDim, zerosT, prodShape, tget, bget, srcIndex, flatIndex,
      indicesOf, reduce, addAt, push_gradient, tadd, List.flatMap, List.foldl, List.zipWith,
      List.range, List.range.loop, List.set]

/-- Witness for C2 at concrete tensors. -/
theorem multiplication_backward_contributions_wit :
    ({ MultiplicationBackward.new (zerosT [1]) (zerosT [1]) with
        gradient := some ⟨[1], [1]⟩ } : MultiplicationBackward).backward
        ⟨[1], [2]⟩ ⟨[1], [3]⟩ ⟨some (zerosT [1]), true⟩ ⟨some (zerosT [1]), true⟩
      = some (⟨some ⟨[1], [3]⟩, false⟩, ⟨some ⟨[1], [2]⟩, false⟩,
          ⟨some ⟨[1], [1]⟩, [1], true, some ⟨[1], [2]⟩⟩) :=
  (multiplication_backward_contributions
    { MultiplicationBackward.new (zerosT [1]) (zerosT [1]) with gradient := some ⟨[1], [1]⟩ }
    ⟨[1], [1]⟩ (zerosT [1]) ⟨[1], [2]⟩ ⟨[1], [3]⟩
    ⟨some (zerosT [1]), true⟩ ⟨some (zerosT [1]), true⟩ (zerosT [1]) (zerosT [1])
    rfl rfl rfl rfl rfl).2

/-- C3. `MatrixMatrixMulTBackward::backward` pushes to the left parent the
contribution `upstream_gradient · right_value` (plain matrix product, no
transpose) and to the right parent `upstream_gradientᵀ · left_value`; in
particular for left 2×3 ones, right 4×3 ones, upstream gradient 2×4 ones and
fresh zero parents, the left parent ends as a 2×3 matrix of 4 and the right
parent as a 4×3 matrix of 2. -/
theorem matrix_matrix_mul_t_backward_contributions
    (n : MatrixMatrixMulTBackward) (g ld rd : Tensor) (lp rp : GradNode)
    (hg : n.gradient = some g) :
    n.backward ld rd lp rp
      = some (push_gradient lp (matMul g rd), push_gradient rp (matMul (trT g) ld)) ∧
    ({ MatrixMatrixMulTBackward.new (zerosT [2, 3]) (zerosT [4, 3]) with
        gradient := some (fullT [2, 4] 1) } : MatrixMatrixMulTBackward).backward
        (fullT [2, 3] 1) (fullT [4, 3] 1)
        ⟨some (zerosT [2, 3]), true⟩ ⟨some (zerosT [4, 3]), true⟩
      = some (⟨some (fullT [2, 3] 4), false⟩, ⟨some (fullT [4, 3] 2), false⟩) := by
  constructor
  · unfold MatrixMatrixMulTBackward.backward push_mat_mat_gradient
    rw [hg]
    rfl
  · norm_num [MatrixMatrixMulTBackward.backward, MatrixMatrixMulTBackward.new,
      push_mat_mat_gradient, push_gradient, matMul, trT, mget, rows, cols, DotDimShape,
      fullT, zerosT, prodShape, tget, flatIndex, indicesOf, List.flatMap, List.foldl,
      List.range, List.range.loop, List.replicate]

/-- Witness for C3 at concrete tensors. -/
theorem matrix_matrix_mul_t_backward_contributions_wit :
    ({ MatrixMatrixMulTBackward.new (zerosT [2, 3]) (zerosT [4, 3]) with
        gradient := some (fullT [2, 4] 1) } : MatrixMatrixMulTBackward).backward
        (fullT [2, 3] 1) (fullT [4, 3] 1)
        ⟨some (zerosT [2, 3]), true⟩ ⟨some (zerosT [4, 3]), true⟩
      = some (⟨some (fullT [2, 3] 4), false⟩, ⟨some (fullT [4, 3] 2), false⟩) :=
  (matrix_matrix_mul_t_backward_contributions
    { MatrixMatrixMulTBackward.new (zerosT [2, 3]) (zerosT [4, 3]) with
        gradient := some (fullT [2, 4] 1) }
    (fullT [2, 4] 1) (fullT [2, 3] 1) (fullT [4, 3] 1)
    ⟨some (zerosT [2, 3]), true⟩ ⟨some (zerosT [4, 3]), true⟩ rfl).2

/-- The fused multiply-accumulate with coefficients 1 and 0 is the plain
matrix product: the prior contents of the output buffer are discarded, not
accumulated into. -/
theorem gemm_one_zero (a b old : Tensor) : gemm 1 a b 0 old = matMul a b := by
  unfold gemm matMul
  congr 1
  apply List.map_congr_left
  intro ix _
  ring

/-- C4. For rank-2 parents with matching inner dimension, `MatrixMatrixMulT`
caches an output of shape `(rows left, rows right)`, and `forward()` (when
not yet computed) sets it to exactly `left · rightᵀ`, discarding any prior
buffer contents; for left 2×3 ones and right 4×3 ones the output is a 2×4
matrix of 3 everywhere. -/
theorem matrix_matrix_mul_t_forward
    (l r : Tensor) (hdim : cols l = cols r) :
    (MatrixMatrixMulT.new l r).data = zerosT [rows l, rows r] ∧
    (∀ st : MatrixMatrixMulT, st.computed = false →
      st.forward l r = ⟨matMul l (trT r), true⟩) ∧
    (MatrixMatrixMulT.new (fullT [2, 3] 1) (fullT [4, 3] 1)).forward
        (fullT [2, 3] 1) (fullT [4, 3] 1)
      = ⟨fullT [2, 4] 3, true⟩ := by
  refine ⟨rfl, fun st hst => ?_, ?_⟩
  · simp [MatrixMatrixMulT.forward, hst, gemm_one_zero]
  · norm_num [MatrixMatrixMulT.forward, MatrixMatrixMulT.new, gemm, trT, mget, rows, cols,
      DotDimShape, fullT, zerosT, prodShape, tget, flatIndex, indicesOf, List.flatMap,
      List.foldl, List.range, List.range.loop, List.replicate]

/-- Witness for C4 at concrete tensors. -/
theorem matrix_matrix_mul_t_forward_wit :
    (MatrixMatrixMulT.new (fullT [2, 3] 1) (fullT [4, 3] 1)).data = zerosT [2, 4] ∧
    (MatrixMatrixMulT.new (fullT [2, 3] 1) (fullT [4, 3] 1)).forward
        (fullT [2, 3] 1) (fullT [4, 3] 1)
      = ⟨fullT [2, 4] 3, true⟩ :=
  ⟨(matrix_matrix_mul_t_forward (fullT [2, 3] 1) (fullT [4, 3] 1) rfl).1,
   (matrix_matrix_mul_t_forward (fullT [2, 3] 1) (fullT [4, 3] 1) rfl).2.2⟩

/-- C5. `forward()` is idempotent within one pass: when `was_computed` is
true it returns immediately leaving the node untouched; otherwise it computes
and sets the flag — so however many times `forward()` is invoked before
`reset_computation()`, the compute body runs exactly once (counted through
the instrumented step), for `Multiplication` and `MatrixMatrixMulT` alike. -/
theorem forward_idempotent_once_per_pass (st : Multiplication) (l r : Tensor) :
    (st.computed = true → st.forward l r = st) ∧
    (st.computed = false → (st.forward l r).computed = true) ∧
    (∀ k : Nat, st.computed = false →
      ((Multiplication.forwardCounted l r)^[k + 1] (st, 0)).2 = 1) ∧
    (∀ mt : MatrixMatrixMulT, mt.computed = true → mt.forward l r = mt) := by
  refine ⟨fun h => ?_, fun h => ?_, fun k h => ?_, fun mt h => ?_⟩
  · simp [Multiplication.forward, h]
  · simp [Multiplication.forward, h]
  · have hstep : Multiplication.forwardCounted l r (st, 0) = (st.forward l r, 1) := by
      simp [Multiplication.forwardCounted, h]
    have hcomp : (st.forward l r).computed = true := by
      simp [Multiplication.forward, h]
    have hfix : ∀ s : Multiplication × Nat, s.1.computed = true →
        Multiplication.forwardCounted l r s = s := by
      intro s hs
      simp [Multiplication.forwardCounted, Multiplication.forward, hs]
    rw [Function.iterate_succ_apply, hstep,
      Function.iterate_fixed (hfix (st.forward l r, 1) hcomp)]
  · simp [MatrixMatrixMulT.forward, h]

/-- Witness for C5 at concrete tensors: five invocations still execute the
compute body once, and a computed node passes through unchanged. -/
theorem forward_idempotent_once_per_pass_wit :
    ((Multiplication.forwardCounted (fullT [1] 2) (fullT [1] 3))^[5]
        (Multiplication.new (fullT [1] 2) (fullT [1] 3), 0)).2 = 1 ∧
    ({ Multiplication.new (fullT [1] 2) (fullT [1] 3) with computed := true }
        : Multiplication).forward (fullT [1] 2) (fullT [1] 3)
      = { Multiplication.new (fullT [1] 2) (fullT [1] 3) with computed := true } :=
  ⟨(forward_idempotent_once_per_pass (Multiplication.new (fullT [1] 2) (fullT [1] 3))
      (fullT [1] 2) (fullT [1] 3)).2.2.1 4 rfl,
   (forward_idempotent_once_per_pass
      { Multiplication.new (fullT [1] 2) (fullT [1] 3) with computed := true }
      (fullT [1] 2) (fullT [1] 3)).1 rfl⟩

/-- C6. For parents with broadcast-compatible shapes, `Multiplication`'s
cached value after `forward()` (when not yet computed) is the elementwise
product of the two parent values broadcast to their common NumPy-broadcast
shape, and the cached tensor has exactly that broadcast shape from
construction onward. -/
theorem multiplication_forward_broadcast
    (l r : Tensor) (s : List Nat) (hs : broadcastShape l.shape r.shape = some s) :
    (Multiplication.new l r).data = zerosT s ∧
    ((Multiplication.new l r).forward l r).data = tmul (broadcastTo l s) (broadcastTo r s) ∧
    (∀ st : Multiplication, st.data.shape = s → (st.forward l r).data.shape = s) := by
  have h1 : (Multiplication.new l r).data = zerosT s := by
    unfold Multiplication.new cobroadcasted_zeros
    rw [hs]
    rfl
  refine ⟨h1, ?_, fun st hsh => ?_⟩
  · have h2 : ((Multiplication.new l r).forward l r).data
        = ⟨(Multiplication.new l r).data.shape,
            (indicesOf (Multiplication.new l r).data.shape).map
              (fun ix => bget l ix * bget r ix)⟩ := rfl
    rw [h2, h1]
    unfold tmul broadcastTo
    simp only
    rw [zipWith_mul_map]
    rfl
  · unfold Multiplication.forward
    by_cases hc : st.computed
    · simp [hc, hsh]
    · simp [hc, hsh]

/-- Witness for C6 at concrete tensors: shape `[2,3]` against shape `[3]`. -/
theorem multiplication_forward_broadcast_wit :
    (Multiplication.new ⟨[2, 3], [1, 2, 3, 4, 5, 6]⟩ ⟨[3], [10, 20, 30]⟩).data
        = zerosT [2, 3] ∧
    ((Multiplication.new ⟨[2, 3], [1, 2, 3, 4, 5, 6]⟩ ⟨[3], [10, 20, 30]⟩).forward
        ⟨[2, 3], [1, 2, 3, 4, 5, 6]⟩ ⟨[3], [10, 20, 30]⟩).data
      = tmul (broadcastTo ⟨[2, 3], [1, 2, 3, 4, 5, 6]⟩ [2, 3])
          (broadcastTo ⟨[3], [10, 20, 30]⟩ [2, 3]) :=
  ⟨(multiplication_forward_broadcast ⟨[2, 3], [1, 2, 3, 4, 5, 6]⟩ ⟨[3], [10, 20, 30]⟩
      [2, 3] rfl).1,
   (multiplication_forward_broadcast ⟨[2, 3], [1, 2, 3, 4, 5, 6]⟩ ⟨[3], [10, 20, 30]⟩
      [2, 3] rfl).2.1⟩

/-- C7. `Adam::step` updates each parameter independently: the step counter
increments by one; the moment estimates become exponential moving averages of
the penalized gradient and of its square; the value update equals the spec's
`value -= lr * mhat / (sqrt(vhat) + eps)` with bias-corrected moments
(provided the square-root function splits over the quotient, as the real
square root does on nonnegatives); and for a scalar parameter with value 1,
gradient 1, lr = 1/10, betas = (9/10, 999/1000), eps = 1e-8 and no penalty,
one step moves the value to `1 - (1/10)/(1 + 1e-8)`, within 1e-8 of 9/10. -/
theorem adam_step_update
    (sqrtF pen : ℚ → ℚ) (lr beta1 beta2 eps : ℚ) (p : AdamParam)
    (hmul : ∀ a b : ℚ, sqrtF (a / b) = sqrtF a / sqrtF b)
    (hq : sqrtF (1/1000) ≠ 0) :
    (adamStepParam sqrtF pen lr beta1 beta2 eps p).step = p.step + 1 ∧
    (adamStepParam sqrtF pen lr beta1 beta2 eps p).exp_avg
      = List.zipWith (fun m g => beta1 * m + (1 - beta1) * (g + pen g)) p.exp_avg p.grad ∧
    (adamStepParam sqrtF pen lr beta1 beta2 eps p).exp_avg_sq
      = List.zipWith (fun v g => beta2 * v + (1 - beta2) * ((g + pen g) * (g + pen g)))
          p.exp_avg_sq p.grad ∧
    (∀ bc1 bc2 d m v : ℚ, adamValueUpdate sqrtF lr eps bc1 bc2 d m v
      = adamValueUpdateSpec sqrtF lr eps bc1 bc2 d m v) ∧
    (adamStepParam sqrtF (fun _ => 0) (1/10) (9/10) (999/1000) (1/10^8)
        (AdamParam.ofParam [1] [1])).data = [1 - (1/10) / (1 + 1/10^8)] ∧
    |(1 : ℚ) - (1/10) / (1 + 1/10^8) - 9/10| < 1/10^8 := by
  have hema1 : (fun m g => m * beta1 + (g + pen g) * (1 - beta1))
      = fun m g : ℚ => beta1 * m + (1 - beta1) * (g + pen g) := by
    funext m g
    ring
  have hema2 : (fun v g => v * beta2 + (g + pen g) * (g + pen g) * (1 - beta2))
      = fun v g : ℚ => beta2 * v + (1 - beta2) * ((g + pen g) * (g + pen g)) := by
    funext v g
    ring
  refine ⟨rfl, ?_, ?_, fun bc1 bc2 d m v => ?_, ?_, ?_⟩
  · simp only [adamStepParam, hema1]
  · simp only [adamStepParam, hema2]
  · simp only [adamValueUpdate, adamValueUpdateSpec, hmul]
    ring
  · have hss : sqrtF (1/1000) / sqrtF (1/1000) = 1 := div_self hq
    norm_num [adamStepParam, adamValueUpdate, AdamParam.ofParam, zipWith3, List.zipWith,
      List.replicate, hss]
  · rw [abs_lt]
    constructor <;> norm_num

/-- Witness for C7: the real square root is modelled by any quotient-splitting
function; the identity splits quotients on ℚ, giving the concrete scalar
step. -/
theorem adam_step_update_wit :
    (adamStepParam id (fun _ => 0) (1/10) (9/10) (999/1000) (1/10^8)
        (AdamParam.ofParam [1] [1])).data = [1 - (1/10) / (1 + 1/10^8)] ∧
    (adamStepParam id (fun _ => 0) (1/10) (9/10) (999/1000) (1/10^8)
        (AdamParam.ofParam [1] [1])).step = 0 + 1 :=
  ⟨(adam_step_update id (fun _ => 0) (1/10) (9/10) (999/1000) (1/10^8)
      (AdamParam.ofParam [1] [1]) (fun a b => rfl) (by norm_num)).2.2.2.2.1,
   (adam_step_update id (fun _ => 0) (1/10) (9/10) (999/1000) (1/10^8)
      (AdamParam.ofParam [1] [1]) (fun a b => rfl) (by norm_num)).1⟩

/-- C8. Calling `no_grad()` then `with_grad()` on a backward node leaves the
gradient buffer present, zero-filled and of the node's construction-time
shape — whatever contents the buffer held before `no_grad()` are not
restored. -/
theorem no_grad_with_grad_round_trip (lg rg : Tensor) (gm : Option Tensor) :
    (∀ n : MultiplicationBackward, n.no_grad.with_grad
        = { n with gradient := some (zerosT n.shape) }) ∧
    ({ MultiplicationBackward.new lg rg with gradient := gm }
        : MultiplicationBackward).no_grad.with_grad.gradient
      = some (zerosT (cobroadcasted_zeros lg rg).shape) ∧
    (∀ n : MatrixMatrixMulTBackward, n.no_grad.with_grad
        = { n with gradient := some (zerosT n.shape) }) ∧
    ({ MatrixMatrixMulTBackward.new lg rg with gradient := gm }
        : MatrixMatrixMulTBackward).no_grad.with_grad.gradient
      = some (zerosT (DotDimShape lg.shape (trT rg).shape)) :=
  ⟨fun _ => rfl, rfl, fun _ => rfl, rfl⟩

/-- C9. Querying the gradient of a backward node in the no-grad state
(buffer absent) is a fatal contract violation: the accessor panics (modelled
as the error outcome) and never yields a tensor. -/
theorem gradient_on_no_grad_panics
    (n : MultiplicationBackward) (m : MatrixMatrixMulTBackward)
    (hn : n.gradient = none) (hm : m.gradient = none) :
    (∀ t, n.gradientAcc ≠ Except.ok t) ∧
    (∀ t, m.gradientAcc ≠ Except.ok t) ∧
    n.gradientAcc = Except.error "trying to get a de-allocated gradient" ∧
    m.gradientAcc = Except.error "trying to get a de-allocated gradient" := by
  refine ⟨fun t => ?_, fun t => ?_, ?_, ?_⟩ <;>
    simp [MultiplicationBackward.gradientAcc, MatrixMatrixMulTBackward.gradientAcc,
      expect_tensor, hn, hm]

/-- Witness for C9 on freshly detached nodes. -/
theorem gradient_on_no_grad_panics_wit :
    (MultiplicationBackward.new (zerosT [1]) (zerosT [1])).no_grad.gradientAcc
        = Except.error "trying to get a de-allocated gradient" ∧
    (MatrixMatrixMulTBackward.new (zerosT [2, 3]) (zerosT [4, 3])).no_grad.gradientAcc
        = Except.error "trying to get a de-allocated gradient" :=
  ⟨(gradient_on_no_grad_panics (MultiplicationBackward.new (zerosT [1]) (zerosT [1])).no_grad
      (MatrixMatrixMulTBackward.new (zerosT [2, 3]) (zerosT [4, 3])).no_grad rfl rfl).2.2.1,
   (gradient_on_no_grad_panics (MultiplicationBackward.new (zerosT [1]) (zerosT [1])).no_grad
      (MatrixMatrixMulTBackward.new (zerosT [2, 3]) (zerosT [4, 3])).no_grad rfl rfl).2.2.2⟩

/-- C10. Every backward node is constructed with its overwrite flag true and
a zero-filled gradient buffer of the broadcast (or matrix-product) output
shape; this fresh state makes the first pushed gradient replace the zeros
exactly rather than add to stale content. -/
theorem backward_nodes_fresh_state
    (lg rg dg nd : Tensor) (p : GradNode) (g0 c : Tensor)
    (hp : p.gradient = some g0) (hov : p.overwrite = true) :
    (MultiplicationBackward.new lg rg).overwrite = true ∧
    (MultiplicationBackward.new lg rg).gradient
      = some (zerosT ((broadcastShape lg.shape rg.shape).getD [])) ∧
    (MultiplicationBackwardUnary.new dg nd).overwrite = true ∧
    (MultiplicationBackwardUnary.new dg nd).gradient
      = some (zerosT ((broadcastShape dg.shape nd.shape).getD [])) ∧
    (MatrixMatrixMulTBackward.new lg rg).overwrite = true ∧
    (MatrixMatrixMulTBackward.new lg rg).gradient = some (zerosT [rows lg, rows rg]) ∧
    (MatrixMatrixMulTBackwardLeft.new lg nd).overwrite = true ∧
    (MatrixMatrixMulTBackwardLeft.new lg nd).gradient = some (zerosT [rows lg, rows nd]) ∧
    (push_gradient p c).gradient = some c := by
  refine ⟨rfl, rfl, rfl, rfl, rfl, rfl, rfl, rfl, ?_⟩
  simp [push_gradient, hp, hov]

/-- Witness for C10: a freshly constructed node has the fresh state, and the
first push into a fresh accumulator stores exactly the contribution. -/
theorem backward_nodes_fresh_state_wit :
    (MultiplicationBackward.new (zerosT [1]) (zerosT [1])).overwrite = true ∧
    (push_gradient ⟨some (zerosT [1]), true⟩ (⟨[1], [7]⟩ : Tensor)).gradient
      = some ⟨[1], [7]⟩ :=
  ⟨(backward_nodes_fresh_state (zerosT [1]) (zerosT [1]) (zerosT [1]) (zerosT [1])
      ⟨some (zerosT [1]), true⟩ (zerosT [1]) ⟨[1], [7]⟩ rfl rfl).1,
   (backward_nodes_fresh_state (zerosT [1]) (zerosT [1]) (zerosT [1]) (zerosT [1])
      ⟨some (zerosT [1]), true⟩ (zerosT [1]) ⟨[1], [7]⟩ rfl rfl).2.2.2.2.2.2.2.2⟩

end Neuronika
